import Mathlib

/-!
Verification development for the ImpersonationBot repository
(impersonation dispatch, webhook cache, payload segmentation).

Python strings are modelled as `List Char`.  Each definition is a shallow
embedding of the correspondingly named Python function; the source file and
line ranges are given in the doc comments.
-/

namespace ImpersonationBot

/-! ## Payload segmenter: `ImpersonationMessageTracker._split_message`
(src/bot/cogs/impersonation/message_tracker.py, lines 180–213) -/

/-- Characters treated as line boundaries by Python `str.splitlines`. -/
def isLinebreak (c : Char) : Bool :=
  c = '\n' || c = '\r' || c = '\x0b' || c = '\x0c' ||
  c = '\x1c' || c = '\x1d' || c = '\x1e' || c = '\x85' ||
  c = '\u2028' || c = '\u2029'

/-- Prepend a character to the first line of a split (the
`chunk += line`-style accumulation inside `splitlines`): used for
non-boundary characters. -/
def consHead (c : Char) : List (List Char) → List (List Char)
  | [] => [[c]]
  | l :: ls => (c :: l) :: ls

/-- Python `message.splitlines(keepends=True)`: split at line boundaries,
each line keeping its terminator; `"\r\n"` counts as a single terminator. -/
def splitlinesKE (s : List Char) : List (List Char) :=
  match s with
  | [] => []
  | c :: rest =>
    if isLinebreak c then
      if c = '\r' ∧ rest.head? = some '\n' then
        [c, '\n'] :: splitlinesKE rest.tail
      else [c] :: splitlinesKE rest
    else consHead c (splitlinesKE rest)
termination_by s.length
decreasing_by
  all_goals simp [List.length_tail]
  all_goals omega

/-- The inner hard-split loop `for i in range(0, len(line), limit):
parts.append(line[i:i + limit])`, fuelled (any `fuel ≥ line.length` is
exact for `limit ≥ 1`). -/
def sliceChunks (limit : Nat) : Nat → List Char → List (List Char)
  | 0, _ => []
  | fuel + 1, line =>
    if line.isEmpty then []
    else line.take limit :: sliceChunks limit fuel (line.drop limit)

/-- `line[i:i+limit]` slices of a single over-long line. -/
def hardSplit (limit : Nat) (line : List Char) : List (List Char) :=
  sliceChunks limit line.length line

/-- The `for line in message.splitlines(keepends=True)` loop of
`_split_message`, with `chunk` the running buffer; emits the parts in
order (including the final `if chunk: parts.append(chunk)`). -/
def splitLoop (limit : Nat) : List (List Char) → List Char → List (List Char)
  | [], chunk => if chunk.isEmpty then [] else [chunk]
  | line :: rest, chunk =>
    if limit < chunk.length + line.length then
      (if chunk.isEmpty then [] else [chunk]) ++
        (if limit < line.length then hardSplit limit line ++ splitLoop limit rest []
         else splitLoop limit rest line)
    else splitLoop limit rest (chunk ++ line)

/-- `ImpersonationMessageTracker._split_message(message, limit=1999)`. -/
def split_message (limit : Nat) (message : List Char) : List (List Char) :=
  if message.length ≤ limit then [message]
  else splitLoop limit (splitlinesKE message) []

/-! ## Selector parser: `ImpersonationMessageTracker.track_messages`
(src/bot/cogs/impersonation/message_tracker.py, lines 69–120) -/

/-- Python `\s` on ASCII text (the regex is applied with `re.IGNORECASE`
and `re.DOTALL`; non-ASCII whitespace is not relevant to the claims). -/
def isPySpace (c : Char) : Bool :=
  c = ' ' || c = '\t' || c = '\n' || c = '\r' || c = '\x0b' || c = '\x0c'

/-- A character of the regex class `[a-z0-9-_]` under `re.IGNORECASE`. -/
def isTriggerChar (c : Char) : Bool :=
  ('a' ≤ c && c ≤ 'z') || ('A' ≤ c && c ≤ 'Z') || ('0' ≤ c && c ≤ '9') ||
  c = '-' || c = '_'

/-- Python `str.strip()`: remove leading and trailing whitespace. -/
def pyStrip (s : List Char) : List Char :=
  ((s.dropWhile isPySpace).reverse.dropWhile isPySpace).reverse

/-- `re.fullmatch(r'\s*([a-z0-9-_]+?)\s*:(.*)', s, re.IGNORECASE | re.DOTALL)`,
returning `(group 1, group 2)` on a match.  The decomposition is
deterministic: the leading `\s*` must consume the maximal whitespace
prefix (group 1 cannot match whitespace), the lazy group must consume the
entire following run of `[a-z0-9-_]` characters (stopping earlier leaves a
class character where `\s*:` expects whitespace or `:`), the second `\s*`
consumes the following whitespace run, after which a literal `:` is
required, and `.*` with `DOTALL` takes everything else. -/
def triggerFullmatch (s : List Char) : Option (List Char × List Char) :=
  let s1 := s.dropWhile isPySpace
  let run := s1.takeWhile isTriggerChar
  let s2 := (s1.dropWhile isTriggerChar).dropWhile isPySpace
  if run.isEmpty then none
  else
    match s2 with
    | ':' :: rest => some (run, rest)
    | _ => none

/-- The `http` literal of `trigger_found.startswith('http')`. -/
def httpChars : List Char := ['h', 't', 't', 'p']

/-- Lines 69–76 of `track_messages` applied to the already-stripped
`content_origs`: the regex match, `group(1).strip()` / `group(2).strip()`
extraction, and the URL guard (`trigger_found.startswith('http')` resets
the trigger and restores the whole text as content). -/
def extractTriggerStripped (content_origs : List Char) :
    Option (List Char) × List Char :=
  match triggerFullmatch content_origs with
  | some (g1, g2) =>
    let trigger_found := pyStrip g1
    let content_found := pyStrip g2
    if !trigger_found.isEmpty && httpChars.isPrefixOf trigger_found then
      (none, content_origs)
    else (some trigger_found, content_found)
  | none => (none, content_origs)

/-- `trigger_found` and `content_found` computed from the raw
`message.content` (line 69 strips the content first). -/
def extractTrigger (content : List Char) : Option (List Char) × List Char :=
  extractTriggerStripped (pyStrip content)

/-- The reserved scene selector literal `'scene'`. -/
def sceneChars : List Char := ['s', 'c', 'e', 'n', 'e']

/-- Python `str.upper()` on ASCII letters. -/
def pyUpper (s : List Char) : List Char :=
  s.map fun c => if 'a' ≤ c ∧ c ≤ 'z' then Char.ofNat (c.toNat - 32) else c

/-- Result of the parsing/dispatch decision part of `track_messages`
(lines 69–131): either the scene short-circuit fired, the message was
deleted as empty, deleted for a missing selector, or dispatch proceeds with
a trigger, the found content and the `content_file_only` flag. -/
inductive TrackOutcome
  | scene (payload : List Char)
  | emptyMessage
  | missingSelector
  | dispatch (trigger payload : List Char) (fileOnly : Bool)
deriving DecidableEq

/-- Decision logic of `track_messages` (lines 69–131), given the raw
message content, the author's stored default trigger (`None` models both a
missing row and an empty string, which Python treats as falsy), and whether
the message carries attachments or stickers.  Mirrors the source order:
regex + URL guard, scene short-circuit, empty-message deletion, default
trigger substitution, missing-selector deletion, then dispatch. -/
def track_messages (content : List Char) (defaultTrigger : Option (List Char))
    (hasAttachments hasStickers : Bool) : TrackOutcome :=
  let tf := (extractTrigger content).1
  let cf := (extractTrigger content).2
  if tf = some sceneChars ∧ ¬cf.isEmpty then
    .scene (pyUpper cf)
  else if cf.isEmpty ∧ hasAttachments = false ∧ hasStickers = false then
    .emptyMessage
  else
    match (match tf with
           | some t => some t
           | none => defaultTrigger : Option (List Char)) with
    | none => .missingSelector
    | some t =>
      .dispatch t cf (cf.isEmpty && (hasAttachments || hasStickers))


/-! ## Persona registry: `ImpersonationProfile` (src/bot/utils/settings.py,
lines 11–34) and `get_profile_by_trigger_and_user`
(src/bot/utils/helpers.py, lines 24–42).  The display-only fields
(`bust_url`, `dossier_url`, `keyart_url`, `power_url`) are not read by any
embedded operation and are omitted. -/

structure ImpersonationProfile where
  triggers : List (List Char)
  username : List Char
  avatar_url : List Char
  restricted_users : Option (List Nat)
deriving DecidableEq

/-- `ImpersonationProfile.is_allowed_user` (settings.py lines 23–34):
`None` restricted list allows everyone, otherwise membership. -/
def ImpersonationProfile.is_allowed_user (p : ImpersonationProfile)
    (user_id : Nat) : Bool :=
  match p.restricted_users with
  | none => true
  | some l => decide (user_id ∈ l)

/-- Python `str.lower()` on ASCII letters. -/
def pyLower (s : List Char) : List Char :=
  s.map fun c => if 'A' ≤ c ∧ c ≤ 'Z' then Char.ofNat (c.toNat + 32) else c

/-- `get_profile_by_trigger_and_user`: first profile whose trigger list
contains the lowercased query and which allows the user (`next(...)` over a
generator). -/
def get_profile_by_trigger_and_user (profiles : List ImpersonationProfile)
    (profile_trigger : List Char) (user_id : Nat) : Option ImpersonationProfile :=
  profiles.find? fun p =>
    decide (pyLower profile_trigger ∈ p.triggers) && p.is_allowed_user user_id

/-! ## Delivery handle cache: `WebhookManager`
(src/bot/utils/webhook_manager.py).  One channel's slice of the manager
state is modelled (all operations on `self.webhooks` touch only
`self.webhooks[channel.id]`); `entry = none` means the channel has not yet
been populated.  `clock` supplies the strictly increasing
`datetime.now(...)` values used for `created_at`.  Remote webhook creation
is modelled as succeeding (a creation failure raises before the cache
insert, leaving the cache unchanged); a remote deletion failure does not
affect the cache (the `pop(-1)` is outside the `try`). -/

structure WebhookModel where
  name : List Char
  created_at : Nat
deriving DecidableEq

structure WMState where
  entry : Option (List WebhookModel)
  clock : Nat
deriving DecidableEq

/-- The reserved naming characters `"RP:"`. -/
def rpChars : List Char := ['R', 'P', ':']

/-- `_get_profile_identifier`: `f"RP:{profile.username}"`. -/
def getProfileIdentifier (p : ImpersonationProfile) : List Char :=
  rpChars ++ p.username

/-- `_populateWebhooks`: cache every pre-existing channel webhook owned by
the bot whose name starts with `"RP:"`.  `seed` lists the channel's
webhooks as (owned-by-bot, name) pairs in listing order (a `None` webhook
name, which the source treats as non-matching, corresponds to a name that
is not `"RP:"`-prefixed). -/
def populateWebhooks : List (Bool × List Char) → Nat → List WebhookModel × Nat
  | [], clock => ([], clock)
  | (owned, nm) :: rest, clock =>
    if owned && rpChars.isPrefixOf nm then
      let acc := populateWebhooks rest (clock + 1)
      (⟨nm, clock⟩ :: acc.1, acc.2)
    else populateWebhooks rest clock

/-- `initialize`: populate exactly once per channel. -/
def wmInitialize (seed : List (Bool × List Char)) (st : WMState) : WMState :=
  match st.entry with
  | some _ => st
  | none =>
    let pc := populateWebhooks seed st.clock
    { entry := some pc.1, clock := pc.2 }

/-- The cache-hit loop of `get_for_profile`: refresh the timestamp of the
first model whose name equals the target (`update_timestamp()`), leaving
the rest unchanged. -/
def touchFirst (target : List Char) (now : Nat) :
    List WebhookModel → List WebhookModel
  | [] => []
  | m :: rest =>
    if m.name = target then { m with created_at := now } :: rest
    else m :: touchFirst target now rest

/-- Stable insertion into a newest-first list, used to model Python's
stable `list.sort(key=lambda wm: wm.created_at, reverse=True)`.  Cached
timestamps are pairwise distinct (the clock strictly increases), so any
key-respecting sort yields the same list. -/
def insertDesc (m : WebhookModel) : List WebhookModel → List WebhookModel
  | [] => [m]
  | x :: xs =>
    if m.created_at < x.created_at then x :: insertDesc m xs
    else m :: x :: xs

/-- `_order_webhooks`: sort by creation time, newest first. -/
def orderWebhooks : List WebhookModel → List WebhookModel
  | [] => []
  | x :: xs => insertDesc x (orderWebhooks xs)

/-- `_delete_oldest_webhook`: if the channel is initialized and nonempty,
sort newest-first and `pop(-1)` (the remote delete is best-effort). -/
def delete_oldest_webhook (l : List WebhookModel) : List WebhookModel :=
  if l.isEmpty then l else (orderWebhooks l).dropLast

/-- `WebhookManager.get_for_profile` (lines 47–77) on one channel:
initialize, scan for an existing webhook with the profile's name (a hit
refreshes its timestamp and returns it), otherwise delete the oldest
webhook when `len > 0 and len >= limit` and append the newly created
webhook.  The constructor clamps the configured limit with
`max(1, limit)` (default 15), so theorems assume `1 ≤ limit`. -/
def get_for_profile (limit : Nat) (seed : List (Bool × List Char))
    (profile : ImpersonationProfile) (st : WMState) : WMState :=
  let st1 := wmInitialize seed st
  let l := st1.entry.getD []
  let target := getProfileIdentifier profile
  if (l.find? fun m => decide (m.name = target)).isSome then
    { entry := some (touchFirst target st1.clock l), clock := st1.clock + 1 }
  else
    let l1 := if 0 < l.length ∧ limit ≤ l.length then delete_oldest_webhook l else l
    { entry := some (l1 ++ [⟨target, st1.clock⟩]), clock := st1.clock + 1 }

/-- Any sequence of `get_for_profile` calls on one channel. -/
def run_get_for_profile (limit : Nat) (seed : List (Bool × List Char)) :
    List ImpersonationProfile → WMState → WMState
  | [], st => st
  | p :: ps, st =>
    run_get_for_profile limit seed ps (get_for_profile limit seed p st)

/-- The cached handle names of a state. -/
def cacheNames (st : WMState) : List (List Char) :=
  (st.entry.getD []).map fun m => m.name

/-! ## Enrichment: `convert_emojis_and_attachments_for_webhook`
(src/bot/utils/helpers.py, lines 190–247). -/

/-- A character of the regex class `[a-zA-Z0-9_]`. -/
def isWordChar (c : Char) : Bool :=
  ('a' ≤ c && c ≤ 'z') || ('A' ≤ c && c ≤ 'Z') || ('0' ≤ c && c ≤ '9') ||
  c = '_'

/-- A character of the regex class `\d`. -/
def isDigitChar (c : Char) : Bool := '0' ≤ c && c ≤ '9'

/-- A match of `EMOJI_PATTERN = (?<!<):([a-zA-Z0-9_]+):(?!\d+>)` starting
at `s`, where `prev` is the character before `s` (for the lookbehind):
returns the captured name and the remainder after the match.  The greedy
`[a-zA-Z0-9_]+` must take the maximal word-character run (a shorter run is
followed by a word character, not `:`), and the negative lookahead fails
exactly when the maximal digit run after the closing `:` is nonempty and
immediately followed by `>`. -/
def tryToken (prev : Option Char) (s : List Char) :
    Option (List Char × List Char) :=
  match s with
  | [] => none
  | c :: t =>
    if c = ':' then
      if prev = some '<' then none
      else if (t.takeWhile isWordChar).isEmpty then none
      else if (t.dropWhile isWordChar).head? = some ':' then
        if !((t.dropWhile isWordChar).tail.takeWhile isDigitChar).isEmpty &&
            ((t.dropWhile isWordChar).tail.dropWhile isDigitChar).head?
              = some '>' then none
        else some (t.takeWhile isWordChar, (t.dropWhile isWordChar).tail)
      else none
    else none

/-- `EMOJI_PATTERN.finditer(text)` together with the gap bookkeeping of
the conversion loop (`converted_parts` / `last_end`): decomposes `text`
into (gap, token-name) pieces plus a trailing gap.  Scanning is
left-to-right and non-overlapping, resuming after each match. -/
def scanAux : Nat → Option Char → List Char →
    List (List Char × List Char) × List Char
  | 0, _, s => ([], s)
  | _ + 1, _, [] => ([], [])
  | fuel + 1, prev, c :: rest =>
    match tryToken prev (c :: rest) with
    | some ru =>
      let acc := scanAux fuel (some ':') ru.2
      (([], ru.1) :: acc.1, acc.2)
    | none =>
      match scanAux fuel (some c) rest with
      | ([], fin) => ([], c :: fin)
      | (gn :: ps, fin) => ((c :: gn.1, gn.2) :: ps, fin)

/-- The token decomposition of a text. -/
def scanTokens (text : List Char) :
    List (List Char × List Char) × List Char :=
  scanAux text.length none text

/-- Rebuild a text from its token decomposition. -/
def rebuildTokens (ps : List (List Char × List Char)) (fin : List Char) :
    List Char :=
  (ps.map fun gn => gn.1 ++ ':' :: (gn.2 ++ [':'])).flatten ++ fin

/-- An emoji of some guild the bot can access (`bot.guilds`, flattened). -/
structure GuildEmoji where
  name : List Char
  id : Nat
  animated : Bool
deriving DecidableEq

/-- An HTTP response for the external-emoji image fetch. -/
structure FetchResponse where
  status : Nat
  body : List Char
deriving DecidableEq

/-- Decimal rendering of an emoji id. -/
def natChars (n : Nat) : List Char := (toString n).toList

/-- `".png"`. -/
def pngChars : List Char := ['.', 'p', 'n', 'g']

/-- The per-match `resolve` closure (helpers.py lines 212–233).  Step 1
substitutes the platform tag for a known guild emoji.  Step 2 runs only
when the external map is truthy (nonempty) and contains the name (Python
`if external_emoji_map and name in external_emoji_map`); the HTTP fetch is
an oracle, and `fetch url = none` models a raised network/decode error —
there is no `try` in the source, so the error propagates out of the whole
conversion (`Except.error`).  A non-200 response falls out of the `with`
blocks to step 3, which returns the token verbatim. -/
def resolveTok (guildEmojis : List GuildEmoji)
    (externalMap : List (List Char × List Char))
    (fetch : List Char → Option FetchResponse) (nm : List Char) :
    Except Unit (List Char × List (List Char)) :=
  match guildEmojis.find? fun e => decide (e.name = nm) with
  | some e =>
    .ok ((if e.animated then ['<', 'a', ':'] else ['<', ':']) ++
      e.name ++ ':' :: natChars e.id ++ ['>'], [])
  | none =>
    if !externalMap.isEmpty ∧ (externalMap.lookup nm).isSome then
      match externalMap.lookup nm with
      | some url =>
        match fetch url with
        | none => .error ()
        | some resp =>
          if resp.status = 200 then
            .ok (['['] ++ nm ++ [']', '('] ++ nm ++ pngChars ++ [')'],
              [nm ++ pngChars])
          else .ok (':' :: (nm ++ [':']), [])
      | none => .ok (':' :: (nm ++ [':']), [])
    else .ok (':' :: (nm ++ [':']), [])

/-- The conversion loop over the matches, accumulating converted text and
appended files; a raised error aborts the whole conversion. -/
def convertLoop (ge : List GuildEmoji)
    (map : List (List Char × List Char))
    (fetch : List Char → Option FetchResponse) :
    List (List Char × List Char) → List (List Char) →
    Except Unit (List Char × List (List Char))
  | [], files => .ok ([], files)
  | gn :: rest, files =>
    (resolveTok ge map fetch gn.2).bind fun se =>
      (convertLoop ge map fetch rest (files ++ se.2)).bind fun txtfs =>
        .ok (gn.1 ++ se.1 ++ txtfs.1, txtfs.2)

/-- `convert_emojis_and_attachments_for_webhook`: scan, resolve each token,
join the pieces.  An `Except.error` is an exception escaping the function
(caught only by the caller's catch-all). -/
def convert_emojis_for_webhook (ge : List GuildEmoji)
    (map : List (List Char × List Char))
    (fetch : List Char → Option FetchResponse)
    (text : List Char) (attachments : List (List Char)) :
    Except Unit (List Char × List (List Char)) :=
  (convertLoop ge map fetch (scanTokens text).1 attachments).bind fun txtfs =>
    .ok (txtfs.1 ++ (scanTokens text).2, txtfs.2)

/-- `true` iff the conversion did not raise. -/
def exceptOk {α : Type} : Except Unit α → Bool
  | .ok _ => true
  | .error _ => false

/-! ## Dispatch: `send_as_profile` (src/bot/utils/helpers.py, lines
45–150).  The observable outcome (returned value, callback message data,
webhook send) together with the cache state left behind.  The
missing-profile callback message lists, for each profile the requesting
user may use, its username and triggers (lines 77–86; string punctuation
elided — the data determines the message text).  The call site passes no
`external_emoji_map`, so the conversion runs with an empty map; stickers
and reply-quoting are not exercised by the claims (`reply_to=None`). -/

inductive SendResult
  | rpDisabled
  | profileNotFound (trigger : List Char)
      (available : List (List Char × List (List Char)))
  | sent (username avatar text : List Char) (attachments : List Nat)
      (extraFiles : List (List Char))
  | sendFailed
deriving DecidableEq

/-- The data of the `profile_listings` message (helpers.py lines 77–81):
username and triggers of each profile the user is allowed to use. -/
def availableListings (profiles : List ImpersonationProfile) (userId : Nat) :
    List (List Char × List (List Char)) :=
  (profiles.filter fun p => p.is_allowed_user userId).map fun p =>
    (p.username, p.triggers)

/-- `send_as_profile`: RP-enabled check, profile lookup (a miss sends the
listing callback and returns `None` with no webhook access), webhook
get-or-create, enrichment, webhook send.  An exception anywhere after the
profile lookup is caught by the catch-all (lines 147–150) and yields
`None` — the chunk is not sent, but the cache keeps any webhook already
created. -/
def send_as_profile (profiles : List ImpersonationProfile) (limit : Nat)
    (seed : List (Bool × List Char)) (ge : List GuildEmoji)
    (fetch : List Char → Option FetchResponse) (rpEnabled : Bool)
    (profile_trigger : List Char) (userId : Nat) (content : List Char)
    (attachments : List Nat) (st : WMState) : SendResult × WMState :=
  if !rpEnabled then (.rpDisabled, st)
  else
    match get_profile_by_trigger_and_user profiles profile_trigger userId with
    | none =>
      (.profileNotFound profile_trigger (availableListings profiles userId), st)
    | some profile =>
      let st1 := get_for_profile limit seed profile st
      match convert_emojis_for_webhook ge [] fetch content [] with
      | .error _ => (.sendFailed, st1)
      | .ok txtfs =>
        (.sent profile.username profile.avatar_url txtfs.1 attachments txtfs.2, st1)

/-! ## The per-part send loop of `track_messages`
(src/bot/cogs/impersonation/message_tracker.py, lines 122–166). -/

/-- One chunk's send arguments: content part, attachments and stickers
passed to `send_as_profile` (opaque ids). -/
structure ChunkSend where
  content : List Char
  files : List Nat
  stickers : List Nat
deriving DecidableEq

/-- Lines 133–136: the final part carries the message's attachments and
stickers (`content_part_last`), earlier parts carry none. -/
def chunkSends : List (List Char) → List Nat → List Nat → List ChunkSend
  | [], _, _ => []
  | [part], files, stkrs => [⟨part, files, stkrs⟩]
  | part :: next :: rest, files, stkrs =>
    ⟨part, [], []⟩ :: chunkSends (next :: rest) files stkrs

/-- Lines 150–151: `if message_sent: impersonation_history.add(...)` — the
provenance records accumulated over the loop, where `sendResult i` is the
message id produced by the `i`-th chunk's delivery (`none` = delivery
failed). -/
def recordLoop (sendResult : Nat → Option Nat) :
    List ChunkSend → Nat → List Nat
  | [], _ => []
  | _ :: rest, i =>
    match sendResult i with
    | some msgId => msgId :: recordLoop sendResult rest (i + 1)
    | none => recordLoop sendResult rest (i + 1)

/-- Lines 129–131: a single empty part for an attachment/sticker-only
message (`content_file_only`), otherwise `_split_message`. -/
def contentParts (payload : List Char) (fileOnly : Bool) : List (List Char) :=
  if fileOnly then [[]] else split_message 1999 payload

/-- End-to-end decision and cache effect of `track_messages`: the scene
and rejection paths never call into the webhook manager (lines 78–120);
the dispatch path runs one `send_as_profile` per content part
(lines 133–148), threading the cache state. -/
def track_run (profiles : List ImpersonationProfile) (limit : Nat)
    (seed : List (Bool × List Char)) (ge : List GuildEmoji)
    (fetch : List Char → Option FetchResponse) (userId : Nat)
    (content : List Char) (defaultTrigger : Option (List Char))
    (files stkrs : List Nat) (st : WMState) : TrackOutcome × WMState :=
  match track_messages content defaultTrigger (!files.isEmpty) (!stkrs.isEmpty) with
  | .dispatch t cf fileOnly =>
    (.dispatch t cf fileOnly,
      (chunkSends (contentParts cf fileOnly) files stkrs).foldl
        (fun s ch =>
          (send_as_profile profiles limit seed ge fetch true t userId
            ch.content ch.files s).2) st)
  | o => (o, st)

/-! ## Invariants and concrete scenario data -/

/-- The names `_populateWebhooks` will cache for a channel with the given
pre-existing webhooks. -/
def seedNames (seed : List (Bool × List Char)) : List (List Char) :=
  (seed.filter fun bn => bn.1 && rpChars.isPrefixOf bn.2).map Prod.snd

/-- The cache invariant claimed for a channel: bounded size and
pairwise-distinct webhook names (one handle per persona). -/
def cacheInv (limit : Nat) (l : List WebhookModel) : Prop :=
  l.length ≤ limit ∧ (l.map fun m => m.name).Nodup

/-- Scenario persona: selectors `nova`/`n`, restricted to user 42. -/
def novaRestricted : ImpersonationProfile :=
  { triggers := [['n', 'o', 'v', 'a'], ['n']], username := ['N', 'o', 'v', 'a'],
    avatar_url := [], restricted_users := some [42] }

/-- Scenario persona: lowercase selectors, unrestricted. -/
def novaLower : ImpersonationProfile :=
  { triggers := [['n', 'o', 'v', 'a'], ['n']], username := ['N', 'o', 'v', 'a'],
    avatar_url := [], restricted_users := none }

/-- Scenario persona whose configured selector is not lowercase. -/
def novaUpper : ImpersonationProfile :=
  { triggers := [['N', 'o', 'v', 'a']], username := ['N', 'o', 'v', 'a'],
    avatar_url := [], restricted_users := none }

/-- Scenario persona with selector `c`. -/
def profileC : ImpersonationProfile :=
  { triggers := [['c']], username := ['c'],
    avatar_url := [], restricted_users := none }

/-- Scenario persona with selector and username `a`. -/
def profileA : ImpersonationProfile :=
  { triggers := [['a']], username := ['a'],
    avatar_url := [], restricted_users := none }

/-- A channel seeding with two distinct pre-existing `RP:` webhooks. -/
def seedTwo : List (Bool × List Char) :=
  [(true, ['R', 'P', ':', 'a']), (true, ['R', 'P', ':', 'b'])]

/-- A channel seeding with two pre-existing `RP:` webhooks of equal name. -/
def seedDup : List (Bool × List Char) :=
  [(true, ['R', 'P', ':', 'a']), (true, ['R', 'P', ':', 'a'])]

/-! ### Theorems -/

theorem flatten_consHead (c : Char) (ls : List (List Char)) :
    (consHead c ls).flatten = c :: ls.flatten := by
  rcases ls with _ | ⟨l, ls⟩ <;> simp [consHead]

theorem flatten_splitlinesKE (s : List Char) : (splitlinesKE s).flatten = s := by
  induction s using splitlinesKE.induct with
  | case1 => simp [splitlinesKE]
  | case2 c rest hbr hr ih =>
    obtain ⟨hc, hd⟩ := hr
    rw [splitlinesKE, if_pos hbr, if_pos ⟨hc, hd⟩]
    rcases rest with _ | ⟨d, ds⟩
    · simp at hd
    · simp only [List.head?_cons, Option.some.injEq] at hd
      subst hc; subst hd
      simp only [List.tail_cons] at ih
      simp [ih]
  | case3 c rest hbr hr ih =>
    rw [splitlinesKE, if_pos hbr, if_neg hr]
    simp [ih]
  | case4 c rest hbr ih =>
    rw [splitlinesKE, if_neg (by simp [hbr])]
    simp [flatten_consHead, ih]

theorem splitlinesKE_no_break (s : List Char) (hne : s ≠ [])
    (h : ∀ c ∈ s, isLinebreak c = false) : splitlinesKE s = [s] := by
  induction s using splitlinesKE.induct with
  | case1 => exact absurd rfl hne
  | case2 c rest hbr hr ih =>
    exact absurd (h c (by simp)) (by simp [hbr])
  | case3 c rest hbr hr ih =>
    exact absurd (h c (by simp)) (by simp [hbr])
  | case4 c rest hbr ih =>
    rw [splitlinesKE, if_neg (by simp [hbr])]
    rcases hrest : rest with _ | ⟨d, ds⟩
    · subst hrest; simp [splitlinesKE, consHead]
    · rw [← hrest]
      have hr : splitlinesKE rest = [rest] := by
        apply ih (by simp [hrest])
        intro x hx; exact h x (List.mem_cons_of_mem _ hx)
      simp [hr, consHead]

theorem flatten_sliceChunks (limit : Nat) (hlim : 1 ≤ limit) :
    ∀ (fuel : Nat) (line : List Char), line.length ≤ fuel →
      (sliceChunks limit fuel line).flatten = line := by
  intro fuel
  induction fuel with
  | zero =>
    intro line hlen
    have : line = [] := by
      cases line <;> simp_all
    simp [this, sliceChunks]
  | succ n ih =>
    intro line hlen
    rw [sliceChunks]
    by_cases he : line.isEmpty
    · simp_all [List.isEmpty_iff]
    · rw [if_neg he, List.flatten_cons, ih]
      · exact List.take_append_drop limit line
      · have := List.length_drop limit line
        have : line ≠ [] := by simp_all [List.isEmpty_iff]
        have h1 : 1 ≤ line.length := by
          cases line <;> simp_all
        simp only [List.length_drop]
        omega

theorem length_le_of_mem_sliceChunks (limit : Nat) :
    ∀ (fuel : Nat) (line : List Char), ∀ p ∈ sliceChunks limit fuel line,
      p.length ≤ limit := by
  intro fuel
  induction fuel with
  | zero =>
    intro line p hp
    simp [sliceChunks] at hp
  | succ n ih =>
    intro line p hp
    rw [sliceChunks] at hp
    by_cases he : line.isEmpty
    · simp [he] at hp
    · rw [if_neg he] at hp
      rcases List.mem_cons.mp hp with h | h
      · subst h
        simp only [List.length_take]
        exact Nat.min_le_left limit line.length
      · exact ih _ p h

theorem flatten_splitLoop (limit : Nat) (hlim : 1 ≤ limit) :
    ∀ (lines : List (List Char)) (chunk : List Char),
      (splitLoop limit lines chunk).flatten = chunk ++ lines.flatten := by
  intro lines
  induction lines with
  | nil =>
    intro chunk
    by_cases h : chunk.isEmpty <;> simp_all [splitLoop, List.isEmpty_iff]
  | cons line rest ih =>
    intro chunk
    rw [splitLoop]
    by_cases hov : limit < chunk.length + line.length
    · rw [if_pos hov]
      by_cases hlong : limit < line.length
      · rw [if_pos hlong]
        have hsc := flatten_sliceChunks limit hlim line.length line le_rfl
        by_cases hch : chunk.isEmpty <;>
          simp_all [ih, hardSplit, List.isEmpty_iff]
      · rw [if_neg hlong]
        by_cases hch : chunk.isEmpty <;> simp_all [ih, List.isEmpty_iff]
    · rw [if_neg hov]
      simp [ih]

theorem length_le_of_mem_splitLoop (limit : Nat) :
    ∀ (lines : List (List Char)) (chunk : List Char), chunk.length ≤ limit →
      ∀ p ∈ splitLoop limit lines chunk, p.length ≤ limit := by
  intro lines
  induction lines with
  | nil =>
    intro chunk hc p hp
    rw [splitLoop] at hp
    by_cases h : chunk.isEmpty
    · simp [h] at hp
    · rw [if_neg h] at hp
      simp at hp; subst hp; exact hc
  | cons line rest ih =>
    intro chunk hc p hp
    rw [splitLoop] at hp
    by_cases hov : limit < chunk.length + line.length
    · rw [if_pos hov] at hp
      rcases List.mem_append.mp hp with h | h
      · by_cases hch : chunk.isEmpty
        · simp [hch] at h
        · rw [if_neg hch] at h
          simp at h; subst h; exact hc
      · by_cases hlong : limit < line.length
        · rw [if_pos hlong] at h
          rcases List.mem_append.mp h with h' | h'
          · exact length_le_of_mem_sliceChunks limit line.length line p h'
          · exact ih [] (by simp) p h'
        · rw [if_neg hlong] at h
          exact ih line (by omega) p h
    · rw [if_neg hov] at hp
      refine ih (chunk ++ line) ?_ p hp
      simp only [List.length_append]
      omega

/-- Helper: `split_message` round-trip and bound for every text and
every limit `≥ 1`. -/
theorem split_message_sound (t : List Char) (L : Nat) (hL : 1 ≤ L) :
    (split_message L t).flatten = t ∧ ∀ p ∈ split_message L t, p.length ≤ L := by
  unfold split_message
  split
  · rename_i hle
    constructor
    · simp
    · intro p hp; simp at hp; subst hp; exact hle
  · constructor
    · rw [flatten_splitLoop L hL, flatten_splitlinesKE]; simp
    · exact length_le_of_mem_splitLoop L (splitlinesKE t) [] (by simp)

theorem sliceChunks_nonempty_step (limit fuel : Nat) (line : List Char)
    (h : line ≠ []) (hf : 1 ≤ fuel) :
    sliceChunks limit fuel line =
      line.take limit :: sliceChunks limit (fuel - 1) (line.drop limit) := by
  rcases line with _ | ⟨c, cs⟩
  · exact absurd rfl h
  · rcases fuel with _ | n
    · omega
    · simp [sliceChunks]

theorem splitlinesKE_replicate (n : Nat) (hn : 1 ≤ n) :
    splitlinesKE (List.replicate n 'a') = [List.replicate n 'a'] := by
  apply splitlinesKE_no_break
  · simp; omega
  · intro c hc
    rw [List.eq_of_mem_replicate hc]
    decide

theorem sliceChunks_nil (limit : Nat) : ∀ fuel, sliceChunks limit fuel [] = [] := by
  intro fuel
  cases fuel <;> simp [sliceChunks]

theorem replicate_ne_nil_of_pos (n : Nat) (a : Char) (hn : 0 < n) :
    List.replicate n a ≠ [] := by
  intro h
  have := congrArg List.length h
  simp only [List.length_replicate, List.length_nil] at this
  omega

theorem split_message_replicate_3000 :
    split_message 1999 (List.replicate 3000 'a') =
      [List.replicate 1999 'a', List.replicate 1001 'a'] := by
  rw [split_message, if_neg (by rw [List.length_replicate]; omega)]
  rw [splitlinesKE_replicate 3000 (by omega)]
  rw [splitLoop]
  rw [if_pos (by rw [List.length_nil, List.length_replicate]; omega)]
  rw [if_pos List.isEmpty_nil, List.nil_append]
  rw [if_pos (by rw [List.length_replicate]; omega)]
  rw [hardSplit, List.length_replicate]
  rw [sliceChunks_nonempty_step 1999 3000 _ (replicate_ne_nil_of_pos 3000 'a' (by omega))
    (by omega)]
  rw [List.take_replicate, List.drop_replicate]
  have e1 : min 1999 3000 = 1999 := by omega
  have e2 : (3000 : Nat) - 1999 = 1001 := by omega
  have e3 : (3000 : Nat) - 1 = 2999 := by omega
  rw [e1, e2, e3]
  rw [sliceChunks_nonempty_step 1999 2999 _ (replicate_ne_nil_of_pos 1001 'a' (by omega))
    (by omega)]
  rw [List.take_replicate, List.drop_replicate]
  have e4 : min 1999 1001 = 1001 := by omega
  have e5 : (1001 : Nat) - 1999 = 0 := by omega
  rw [e4, e5, List.replicate_zero, sliceChunks_nil]
  rw [splitLoop, if_pos List.isEmpty_nil, List.append_nil]

/-- C1: segmentation round-trip and bound — for every text `t` and limit
`L ≥ 1`, the concatenation of `_split_message(t, L)` reproduces `t` and every
part has length `≤ L`; for 3000 identical non-newline characters and
`L = 1999` the output is exactly two segments of lengths 1999 and 1001. -/
theorem segmenter_roundtrip_bound_and_example :
    (∀ (t : List Char) (L : Nat), 1 ≤ L →
      (split_message L t).flatten = t ∧ ∀ p ∈ split_message L t, p.length ≤ L) ∧
    split_message 1999 (List.replicate 3000 'a') =
      [List.replicate 1999 'a', List.replicate 1001 'a'] :=
  ⟨fun t L hL => split_message_sound t L hL, split_message_replicate_3000⟩

/-- Witness for C1 at a concrete input. -/
theorem segmenter_roundtrip_witness :
    (split_message 2 ['a', 'b', 'c']).flatten = ['a', 'b', 'c'] :=
  (segmenter_roundtrip_bound_and_example.1 ['a', 'b', 'c'] 2 (by decide)).1


/-! ### Selector parser lemmas -/

theorem dropWhile_all_append (p : Char → Bool) (l1 l2 : List Char)
    (h : ∀ c ∈ l1, p c = true) :
    (l1 ++ l2).dropWhile p = l2.dropWhile p := by
  induction l1 with
  | nil => simp
  | cons a as ih =>
    simp only [List.cons_append, List.dropWhile_cons]
    rw [if_pos (h a (by simp))]
    exact ih fun c hc => h c (by simp [hc])

theorem takeWhile_all_append (p : Char → Bool) (l1 l2 : List Char)
    (h : ∀ c ∈ l1, p c = true) :
    (l1 ++ l2).takeWhile p = l1 ++ l2.takeWhile p := by
  induction l1 with
  | nil => simp
  | cons a as ih =>
    simp only [List.cons_append, List.takeWhile_cons]
    rw [if_pos (h a (by simp))]
    rw [ih fun c hc => h c (by simp [hc])]

theorem dropWhile_eq_self_of_all_neg (p : Char → Bool) (l : List Char)
    (h : ∀ c ∈ l, p c = false) : l.dropWhile p = l := by
  cases l with
  | nil => rfl
  | cons a as =>
    simp only [List.dropWhile_cons]
    rw [if_neg (by simp [h a (by simp)])]

theorem space_not_trigger (c : Char) (h : isPySpace c = true) :
    isTriggerChar c = false := by
  simp only [isPySpace, Bool.or_eq_true, decide_eq_true_eq] at h
  rcases h with ((((h | h) | h) | h) | h) | h <;> subst h <;> decide

theorem trigger_not_space (c : Char) (h : isTriggerChar c = true) :
    isPySpace c = false := by
  cases hx : isPySpace c with
  | false => rfl
  | true => rw [space_not_trigger c hx] at h; cases h

theorem pyStrip_no_space (s : List Char) (h : ∀ c ∈ s, isPySpace c = false) :
    pyStrip s = s := by
  unfold pyStrip
  rw [dropWhile_eq_self_of_all_neg _ s h]
  rw [dropWhile_eq_self_of_all_neg _ s.reverse
    (by intro c hc; exact h c (List.mem_reverse.mp hc))]
  exact List.reverse_reverse s

theorem triggerFullmatch_decomp (ws1 sel ws2 rest : List Char)
    (h1 : ∀ c ∈ ws1, isPySpace c = true)
    (h2 : sel ≠ [])
    (h3 : ∀ c ∈ sel, isTriggerChar c = true)
    (h4 : ∀ c ∈ ws2, isPySpace c = true) :
    triggerFullmatch (ws1 ++ (sel ++ (ws2 ++ ':' :: rest))) = some (sel, rest) := by
  rcases sel with _ | ⟨a, as⟩
  · exact absurd rfl h2
  have ha : isTriggerChar a = true := h3 a (by simp)
  have hs1 : (ws1 ++ ((a :: as) ++ (ws2 ++ ':' :: rest))).dropWhile isPySpace
      = (a :: as) ++ (ws2 ++ ':' :: rest) := by
    rw [dropWhile_all_append isPySpace ws1 _ h1]
    simp only [List.cons_append, List.dropWhile_cons]
    rw [if_neg (by simp [trigger_not_space a ha])]
  have htail : ∀ (q : Char → Bool), (∀ c, isPySpace c = true → q c = false) →
      q ':' = false → (ws2 ++ ':' :: rest).takeWhile q = []
        ∧ (ws2 ++ ':' :: rest).dropWhile q = ws2 ++ ':' :: rest := by
    intro q hq hqc
    rcases ws2 with _ | ⟨e, es⟩
    · constructor
      · simp only [List.nil_append, List.takeWhile_cons]
        rw [if_neg (by simp [hqc])]
      · simp only [List.nil_append, List.dropWhile_cons]
        rw [if_neg (by simp [hqc])]
    · constructor
      · simp only [List.cons_append, List.takeWhile_cons]
        rw [if_neg (by simp [hq e (h4 e (by simp))])]
      · simp only [List.cons_append, List.dropWhile_cons]
        rw [if_neg (by simp [hq e (h4 e (by simp))])]
  have htr := htail isTriggerChar (fun c hc => space_not_trigger c hc) (by decide)
  have hrun : ((a :: as) ++ (ws2 ++ ':' :: rest)).takeWhile isTriggerChar
      = a :: as := by
    rw [takeWhile_all_append isTriggerChar (a :: as) _ h3, htr.1, List.append_nil]
  have hdrop : ((a :: as) ++ (ws2 ++ ':' :: rest)).dropWhile isTriggerChar
      = ws2 ++ ':' :: rest := by
    rw [dropWhile_all_append isTriggerChar (a :: as) _ h3, htr.2]
  have hdrop2 : (ws2 ++ ':' :: rest).dropWhile isPySpace = ':' :: rest := by
    rw [dropWhile_all_append isPySpace ws2 _ h4]
    simp only [List.dropWhile_cons]
    rw [if_neg (by decide)]
  simp only [triggerFullmatch]
  rw [hs1, hrun, hdrop, hdrop2]
  simp

theorem extract_matched (ws1 sel ws2 rest : List Char)
    (h1 : ∀ c ∈ ws1, isPySpace c = true)
    (h2 : sel ≠ [])
    (h3 : ∀ c ∈ sel, isTriggerChar c = true)
    (h4 : ∀ c ∈ ws2, isPySpace c = true)
    (h5 : httpChars.isPrefixOf sel = false) :
    extractTriggerStripped (ws1 ++ (sel ++ (ws2 ++ ':' :: rest)))
      = (some sel, pyStrip rest) := by
  unfold extractTriggerStripped
  rw [triggerFullmatch_decomp ws1 sel ws2 rest h1 h2 h3 h4]
  have hstrip : pyStrip sel = sel :=
    pyStrip_no_space sel fun c hc => trigger_not_space c (h3 c hc)
  simp only [hstrip]
  rw [if_neg (by simp [h5])]

theorem extract_url (ws1 sel ws2 rest : List Char)
    (h1 : ∀ c ∈ ws1, isPySpace c = true)
    (h2 : sel ≠ [])
    (h3 : ∀ c ∈ sel, isTriggerChar c = true)
    (h4 : ∀ c ∈ ws2, isPySpace c = true)
    (h5 : httpChars.isPrefixOf sel = true) :
    extractTriggerStripped (ws1 ++ (sel ++ (ws2 ++ ':' :: rest)))
      = (none, ws1 ++ (sel ++ (ws2 ++ ':' :: rest))) := by
  unfold extractTriggerStripped
  rw [triggerFullmatch_decomp ws1 sel ws2 rest h1 h2 h3 h4]
  have hstrip : pyStrip sel = sel :=
    pyStrip_no_space sel fun c hc => trigger_not_space c (h3 c hc)
  simp only [hstrip]
  rw [if_pos (by simp [h5, List.isEmpty_iff, h2])]

/-- C3: selector parsing with URL guard — an input decomposing under the
grammar `^\s*([a-z0-9-_]+?)\s*:(.*)$` whose captured selector does not
start with `http` parses to (group 1, trimmed group 2); a captured selector
starting with `http` resets the parse so the whole text is payload with no
explicit selector; `"https://a.b:80"` with no default selector is rejected
as missing-selector (no dispatch occurs). -/
theorem selector_parsing_with_url_guard :
    (∀ ws1 sel ws2 rest : List Char,
      (∀ c ∈ ws1, isPySpace c = true) → sel ≠ [] →
      (∀ c ∈ sel, isTriggerChar c = true) → (∀ c ∈ ws2, isPySpace c = true) →
      httpChars.isPrefixOf sel = false →
      extractTriggerStripped (ws1 ++ (sel ++ (ws2 ++ ':' :: rest)))
        = (some sel, pyStrip rest)) ∧
    (∀ ws1 sel ws2 rest : List Char,
      (∀ c ∈ ws1, isPySpace c = true) → sel ≠ [] →
      (∀ c ∈ sel, isTriggerChar c = true) → (∀ c ∈ ws2, isPySpace c = true) →
      httpChars.isPrefixOf sel = true →
      extractTriggerStripped (ws1 ++ (sel ++ (ws2 ++ ':' :: rest)))
        = (none, ws1 ++ (sel ++ (ws2 ++ ':' :: rest)))) ∧
    track_messages ['h', 't', 't', 'p', 's', ':', '/', '/', 'a', '.', 'b', ':', '8', '0']
      none false false = .missingSelector :=
  ⟨extract_matched, extract_url, by decide⟩

/-- Witness for C3 at a concrete input. -/
theorem selector_parsing_witness :
    extractTriggerStripped ['a', 'b', ':', ' ', 'h', 'i']
      = (some ['a', 'b'], ['h', 'i']) := by
  have := selector_parsing_with_url_guard.1 [] ['a', 'b'] [] [' ', 'h', 'i']
    (by simp) (by decide) (by decide) (by simp) (by decide)
  simpa using this

/-- C8: the empty-message rejection interacts with the default selector as
specified — empty text with a default selector and no attachments/stickers
is rejected as empty-message (not missing-selector), while an empty text
with at least one attachment or sticker and a default selector is not
rejected and dispatches (with the file-only single empty part). -/
theorem empty_check_with_default :
    (∀ d : List Char, track_messages [] (some d) false false = .emptyMessage) ∧
    (∀ (d : List Char) (a s : Bool), (a || s) = true →
      track_messages [] (some d) a s = .dispatch d [] true) := by
  constructor
  · intro d; rfl
  · intro d a s h
    cases a <;> cases s
    · simp at h
    · rfl
    · rfl
    · rfl

/-- Witness for C8 at a concrete input. -/
theorem empty_check_with_default_witness :
    track_messages [] (some ['n', 'o', 'v', 'a']) true false
      = .dispatch ['n', 'o', 'v', 'a'] [] true :=
  empty_check_with_default.2 ['n', 'o', 'v', 'a'] true false (by decide)

/-- C7 counterexample: the scene comparison `trigger_found == 'scene'` is
case-sensitive and requires a nonempty payload.  `"Scene: hi"` parses to
selector `"Scene"`, equal to the reserved literal up to case, yet
dispatches as an ordinary persona selector instead of taking the scene
path; `"scene:"` with an attachment parses to the exact selector `"scene"`
with empty payload and also dispatches. -/
theorem scene_directive_counterexample :
    track_messages ['S', 'c', 'e', 'n', 'e', ':', ' ', 'h', 'i'] none false false
        = .dispatch ['S', 'c', 'e', 'n', 'e'] ['h', 'i'] false ∧
    track_messages ['S', 'c', 'e', 'n', 'e', ':', ' ', 'h', 'i'] none false false
        ≠ .scene (pyUpper ['h', 'i']) ∧
    track_messages ['s', 'c', 'e', 'n', 'e', ':'] (some ['n', 'o', 'v', 'a']) true false
        = .dispatch ['s', 'c', 'e', 'n', 'e'] [] true := by
  refine ⟨by decide, by decide, by decide⟩

/-- C7 (amended): for every input whose parsed selector is exactly the
lowercase literal `scene` (the comparison is case-sensitive) and whose
payload is nonempty, dispatch takes the stylized scene path: the payload is
upper-cased and posted as a single styled system-style message not voiced
by any persona, with no delivery-handle lookup or creation and no mutation
of the delivery handle cache. -/
theorem scene_directive_amended (profiles : List ImpersonationProfile)
    (limit : Nat) (seed : List (Bool × List Char)) (ge : List GuildEmoji)
    (fetch : List Char → Option FetchResponse) (userId : Nat)
    (content : List Char) (d : Option (List Char)) (files stkrs : List Nat)
    (st : WMState) (ws2 rest : List Char)
    (hdec : pyStrip content = sceneChars ++ (ws2 ++ ':' :: rest))
    (hws2 : ∀ c ∈ ws2, isPySpace c = true)
    (hne : pyStrip rest ≠ []) :
    track_run profiles limit seed ge fetch userId content d files stkrs st
      = (.scene (pyUpper (pyStrip rest)), st) := by
  have hex : extractTrigger content = (some sceneChars, pyStrip rest) := by
    unfold extractTrigger
    rw [hdec]
    have := extract_matched [] sceneChars ws2 rest (by simp) (by decide)
      (by decide) hws2 (by decide)
    simpa using this
  have htm : ∀ a s, track_messages content d a s
      = .scene (pyUpper (pyStrip rest)) := by
    intro a s
    unfold track_messages
    rw [hex]
    simp [List.isEmpty_iff, hne]
  unfold track_run
  rw [htm]

/-- Witness for the amended C7 at a concrete input. -/
theorem scene_directive_amended_witness :
    track_run [] 15 [] [] (fun _ => none) 1
        ['s', 'c', 'e', 'n', 'e', ':', ' ', 'h', 'i'] none [] [] ⟨none, 0⟩
      = (.scene (pyUpper (pyStrip [' ', 'h', 'i'])), ⟨none, 0⟩) :=
  scene_directive_amended [] 15 [] [] (fun _ => none) 1
    ['s', 'c', 'e', 'n', 'e', ':', ' ', 'h', 'i'] none [] [] ⟨none, 0⟩
    [] [' ', 'h', 'i'] (by decide) (by simp) (by decide)


/-! ### Persona registry lemmas -/

theorem find?_append_skip {α : Type} (pred : α → Bool) (l1 l2 : List α)
    (p : α) (hp : pred p = false) :
    List.find? pred (l1 ++ p :: l2) = List.find? pred (l1 ++ l2) := by
  induction l1 with
  | nil => simp [List.find?_cons, hp]
  | cons a as ih =>
    by_cases ha : pred a <;> simp [List.find?_cons, ha, ih]

theorem find?_all_neg_append {α : Type} (pred : α → Bool) (l1 l2 : List α)
    (h : ∀ q ∈ l1, pred q = false) :
    List.find? pred (l1 ++ l2) = List.find? pred l2 := by
  induction l1 with
  | nil => simp
  | cons a as ih =>
    simp only [List.cons_append, List.find?_cons]
    rw [h a (by simp)]
    exact ih fun q hq => h q (by simp [hq])

/-- C5: authorization indistinguishability — a persona whose restricted
user set excludes the requesting user is observationally absent: the whole
of `send_as_profile` (returned result, callback listing data, transport
sends and the webhook-cache state) is identical with and without that
persona in the registry, for every selector.  In the concrete scenario, a
persona restricted to `{42}` queried by user 99 with selector `n` yields
the not-found rejection (the listing shows no profiles), with the cache
untouched and no send. -/
theorem authorization_indistinguishable :
    (∀ (l1 l2 : List ImpersonationProfile) (p : ImpersonationProfile)
      (limit : Nat) (seed : List (Bool × List Char)) (ge : List GuildEmoji)
      (fetch : List Char → Option FetchResponse) (rpE : Bool)
      (trigger : List Char) (userId : Nat) (content : List Char)
      (att : List Nat) (st : WMState),
      p.is_allowed_user userId = false →
      send_as_profile (l1 ++ p :: l2) limit seed ge fetch rpE trigger userId
          content att st
        = send_as_profile (l1 ++ l2) limit seed ge fetch rpE trigger userId
          content att st) ∧
    send_as_profile [novaRestricted] 15 [] [] (fun _ => none) true ['n'] 99
        ['h', 'i'] [] ⟨none, 0⟩
      = (.profileNotFound ['n'] [], ⟨none, 0⟩) := by
  constructor
  · intro l1 l2 p limit seed ge fetch rpE trigger userId content att st hden
    cases rpE with
    | false => rfl
    | true =>
      have hfind : get_profile_by_trigger_and_user (l1 ++ p :: l2) trigger userId
          = get_profile_by_trigger_and_user (l1 ++ l2) trigger userId := by
        unfold get_profile_by_trigger_and_user
        exact find?_append_skip _ l1 l2 p (by simp [hden])
      have hlist : availableListings (l1 ++ p :: l2) userId
          = availableListings (l1 ++ l2) userId := by
        unfold availableListings
        rw [List.filter_append, List.filter_cons_of_neg (by simp [hden]),
          List.filter_append]
      simp only [send_as_profile, hfind, hlist]
  · decide

/-- Witness for C5 at a concrete input. -/
theorem authorization_indistinguishable_witness :
    send_as_profile [novaRestricted] 15 [] [] (fun _ => none) true ['x'] 99
        [] [] ⟨none, 0⟩
      = send_as_profile [] 15 [] [] (fun _ => none) true ['x'] 99 [] [] ⟨none, 0⟩ :=
  authorization_indistinguishable.1 [] [] novaRestricted 15 [] [] (fun _ => none)
    true ['x'] 99 [] [] ⟨none, 0⟩ (by decide)

/-- C9 counterexample: lookup lowercases only the query, not the stored
selectors, so a persona configured with the selector `Nova` is not found —
neither by the identical spelling `Nova` nor by any other case variant. -/
theorem case_insensitive_lookup_counterexample :
    get_profile_by_trigger_and_user [novaUpper] ['N', 'o', 'v', 'a'] 7 = none ∧
    get_profile_by_trigger_and_user [novaUpper] ['n', 'o', 'v', 'a'] 7 = none := by
  refine ⟨by decide, by decide⟩

/-- C9 (amended): case-insensitive selector lookup holds for lowercase
stored selectors — for every persona `p`, selector `s` of `p` whose
lowercase form is itself (`pyLower s = s`), user `u` allowed by `p`, and
case variant s2 of `s`, the lookup returns `p`, provided no earlier profile
claims `s` (the configuration loader rejects duplicate selectors across
profiles). -/
theorem case_insensitive_lookup_amended (l1 l2 : List ImpersonationProfile)
    (p : ImpersonationProfile) (s s2 : List Char) (u : Nat)
    (hmem : s ∈ p.triggers) (hlow : pyLower s = s)
    (hvar : pyLower s2 = pyLower s)
    (hallow : p.is_allowed_user u = true)
    (hearlier : ∀ q ∈ l1, ¬ s ∈ q.triggers) :
    get_profile_by_trigger_and_user (l1 ++ p :: l2) s2 u = some p := by
  unfold get_profile_by_trigger_and_user
  have hs2 : pyLower s2 = s := hvar.trans hlow
  rw [find?_all_neg_append _ l1 (p :: l2)
    (by intro q hq; simp [hs2, hearlier q hq])]
  simp [List.find?_cons, hs2, hmem, hallow]

/-- Witness for the amended C9 at a concrete input. -/
theorem case_insensitive_lookup_witness :
    get_profile_by_trigger_and_user [novaLower] ['N', 'o', 'V', 'a'] 7
      = some novaLower :=
  case_insensitive_lookup_amended [] [] novaLower
    ['n', 'o', 'v', 'a'] ['N', 'o', 'V', 'a'] 7
    (by decide) (by decide) (by decide) (by decide) (by simp)

/-- C10: a present-but-empty `restricted_users` list denies every user —
unlike an absent (`None`) list, which allows every user — and therefore no
lookup through the public find interface can ever return such a persona. -/
theorem empty_allowlist_denies :
    (∀ (p : ImpersonationProfile) (u : Nat),
      p.restricted_users = some [] → p.is_allowed_user u = false) ∧
    (∀ (p : ImpersonationProfile) (u : Nat),
      p.restricted_users = none → p.is_allowed_user u = true) ∧
    (∀ (profiles : List ImpersonationProfile) (t : List Char) (u : Nat)
      (q : ImpersonationProfile),
      get_profile_by_trigger_and_user profiles t u = some q →
      q.restricted_users ≠ some []) := by
  refine ⟨?_, ?_, ?_⟩
  · intro p u h; simp [ImpersonationProfile.is_allowed_user, h]
  · intro p u h; simp [ImpersonationProfile.is_allowed_user, h]
  · intro profiles t u q hq hcon
    have hpred := List.find?_some hq
    simp [ImpersonationProfile.is_allowed_user, hcon] at hpred

/-- Witness for C10 at a concrete input. -/
theorem empty_allowlist_denies_witness :
    ImpersonationProfile.is_allowed_user
      { triggers := [], username := [], avatar_url := [],
        restricted_users := some [] } 5 = false :=
  empty_allowlist_denies.1 _ 5 rfl


/-! ### Delivery handle cache lemmas -/

theorem populateWebhooks_names (seed : List (Bool × List Char)) :
    ∀ c : Nat, ((populateWebhooks seed c).1.map fun m => m.name)
      = seedNames seed := by
  induction seed with
  | nil => intro c; rfl
  | cons a rest ih =>
    intro c
    rcases a with ⟨owned, nm⟩
    by_cases h : (owned && rpChars.isPrefixOf nm) = true
    · simp [populateWebhooks, seedNames, List.filter_cons, h]
      simpa [seedNames] using ih (c + 1)
    · simp only [populateWebhooks]
      rw [if_neg h]
      simp only [seedNames, List.filter_cons]
      rw [if_neg h]
      simpa [seedNames] using ih c

theorem touchFirst_names (target : List Char) (now : Nat) :
    ∀ l : List WebhookModel,
      ((touchFirst target now l).map fun m => m.name) = l.map fun m => m.name := by
  intro l
  induction l with
  | nil => rfl
  | cons m rest ih =>
    by_cases h : m.name = target <;> simp [touchFirst, h, ih]

theorem insertDesc_perm (m : WebhookModel) (l : List WebhookModel) :
    (insertDesc m l).Perm (m :: l) := by
  induction l with
  | nil => exact List.Perm.refl _
  | cons x xs ih =>
    rw [insertDesc]
    by_cases h : m.created_at < x.created_at
    · rw [if_pos h]
      exact (ih.cons x).trans (List.Perm.swap m x xs)
    · rw [if_neg h]

theorem orderWebhooks_perm : ∀ l : List WebhookModel,
    (orderWebhooks l).Perm l := by
  intro l
  induction l with
  | nil => exact List.Perm.refl _
  | cons x xs ih =>
    rw [orderWebhooks]
    exact (insertDesc_perm x (orderWebhooks xs)).trans (ih.cons x)

theorem delete_oldest_mem (l : List WebhookModel) (m : WebhookModel)
    (h : m ∈ delete_oldest_webhook l) : m ∈ l := by
  unfold delete_oldest_webhook at h
  by_cases he : l.isEmpty
  · rw [if_pos he] at h; exact h
  · rw [if_neg he] at h
    exact (orderWebhooks_perm l).mem_iff.mp
      ((List.dropLast_sublist (orderWebhooks l)).subset h)

theorem delete_oldest_nodup (l : List WebhookModel)
    (h : (l.map fun m => m.name).Nodup) :
    ((delete_oldest_webhook l).map fun m => m.name).Nodup := by
  unfold delete_oldest_webhook
  by_cases he : l.isEmpty
  · rw [if_pos he]; exact h
  · rw [if_neg he]
    have hperm : ((orderWebhooks l).map fun m => m.name).Nodup :=
      ((orderWebhooks_perm l).map fun m => m.name).nodup_iff.mpr h
    exact ((List.dropLast_sublist (orderWebhooks l)).map fun m => m.name).nodup hperm

theorem delete_oldest_length (l : List WebhookModel) (hne : l ≠ []) :
    (delete_oldest_webhook l).length = l.length - 1 := by
  unfold delete_oldest_webhook
  rw [if_neg (by simp [hne])]
  rw [List.length_dropLast, (orderWebhooks_perm l).length_eq]

theorem get_for_profile_preserves (limit : Nat) (hlim : 1 ≤ limit)
    (seed : List (Bool × List Char))
    (hsl : (seedNames seed).length ≤ limit) (hsn : (seedNames seed).Nodup)
    (p : ImpersonationProfile) (st : WMState)
    (hst : ∀ l, st.entry = some l → cacheInv limit l) :
    ∀ l, (get_for_profile limit seed p st).entry = some l → cacheInv limit l := by
  have hinv0 : cacheInv limit ((wmInitialize seed st).entry.getD []) := by
    cases hent : st.entry with
    | some l0 =>
      have heq : wmInitialize seed st = st := by simp [wmInitialize, hent]
      rw [heq, hent]
      exact hst l0 hent
    | none =>
      have hval : (wmInitialize seed st).entry.getD []
          = (populateWebhooks seed st.clock).1 := by
        simp [wmInitialize, hent]
      rw [hval]
      constructor
      · have hn := congrArg List.length (populateWebhooks_names seed st.clock)
        simp only [List.length_map] at hn
        omega
      · rw [populateWebhooks_names seed st.clock]
        exact hsn
  intro lres hres
  simp only [get_for_profile] at hres
  set st1 := wmInitialize seed st with hst1
  set l0 : List WebhookModel := st1.entry.getD [] with hl0def
  set target : List Char := getProfileIdentifier p with htarget
  by_cases hfind : (l0.find? fun m => decide (m.name = target)).isSome = true
  · rw [if_pos hfind] at hres
    simp only [Option.some.injEq] at hres
    subst hres
    constructor
    · have hlen := congrArg List.length (touchFirst_names target st1.clock l0)
      simp only [List.length_map] at hlen
      rw [hlen]
      exact hinv0.1
    · rw [touchFirst_names]
      exact hinv0.2
  · rw [if_neg hfind] at hres
    simp only [Option.some.injEq] at hres
    subst hres
    have hnone : (l0.find? fun m => decide (m.name = target)) = none := by
      cases hf : l0.find? fun m => decide (m.name = target) with
      | none => rfl
      | some m => rw [hf] at hfind; simp at hfind
    have hnot : ∀ m ∈ l0, m.name ≠ target := by
      intro m hm
      have := List.find?_eq_none.mp hnone m hm
      simpa using this
    set l1 := if 0 < l0.length ∧ limit ≤ l0.length
      then delete_oldest_webhook l0 else l0 with hl1
    have hmem : ∀ m ∈ l1, m ∈ l0 := by
      intro m hm
      rw [hl1] at hm
      by_cases hc : 0 < l0.length ∧ limit ≤ l0.length
      · rw [if_pos hc] at hm; exact delete_oldest_mem l0 m hm
      · rw [if_neg hc] at hm; exact hm
    have hnodup1 : (l1.map fun m => m.name).Nodup := by
      rw [hl1]
      by_cases hc : 0 < l0.length ∧ limit ≤ l0.length
      · rw [if_pos hc]; exact delete_oldest_nodup l0 hinv0.2
      · rw [if_neg hc]; exact hinv0.2
    have hlen1 : l1.length + 1 ≤ limit := by
      rw [hl1]
      by_cases hc : 0 < l0.length ∧ limit ≤ l0.length
      · rw [if_pos hc]
        rw [delete_oldest_length l0 (by intro h0; rw [h0] at hc; simp at hc)]
        have := hinv0.1
        omega
      · rw [if_neg hc]
        push_neg at hc
        rcases Nat.eq_zero_or_pos l0.length with h0 | h0
        · omega
        · have := hc h0; omega
    constructor
    · simp only [List.length_append, List.length_cons, List.length_nil]
      omega
    · rw [List.map_append]
      simp only [List.map_cons, List.map_nil]
      rw [List.nodup_append]
      refine ⟨hnodup1, List.nodup_singleton _, ?_⟩
      intro a ha hmem2
      simp only [List.mem_singleton] at hmem2
      subst hmem2
      rcases List.mem_map.mp ha with ⟨m, hm, hname⟩
      exact hnot m (hmem m hm) hname

theorem run_get_for_profile_preserves (limit : Nat) (hlim : 1 ≤ limit)
    (seed : List (Bool × List Char))
    (hsl : (seedNames seed).length ≤ limit) (hsn : (seedNames seed).Nodup) :
    ∀ (ps : List ImpersonationProfile) (st : WMState),
      (∀ l, st.entry = some l → cacheInv limit l) →
      ∀ l, (run_get_for_profile limit seed ps st).entry = some l →
        cacheInv limit l := by
  intro ps
  induction ps with
  | nil => intro st hst; simpa [run_get_for_profile] using hst
  | cons p ps ih =>
    intro st hst
    simp only [run_get_for_profile]
    exact ih _ (get_for_profile_preserves limit hlim seed hsl hsn p st hst)

/-- C2 counterexample: the one-time population caches every pre-existing
`RP:`-prefixed bot-owned webhook with no cap and no deduplication, and a
cache miss deletes only one webhook before creating another — so a channel
seeded with two such webhooks under `limit = 1` holds two handles after a
single `get_for_profile` call, and a channel seeded with two same-named
webhooks retains the duplicate persona binding. -/
theorem webhook_cache_counterexample :
    ((run_get_for_profile 1 seedTwo [profileC] ⟨none, 0⟩).entry.getD []).length
        = 2 ∧
    ¬ (((run_get_for_profile 15 seedDup [profileA] ⟨none, 0⟩).entry.getD []).map
        fun m => m.name).Nodup := by
  refine ⟨by decide, by decide⟩

/-- C2 (amended): provided the one-time population seeds at most `N`
handles with pairwise-distinct names (in particular for a channel with no
pre-existing reserved-prefix handles), after any sequence of
`get_for_profile` calls on the channel with capacity `N ≥ 1` the cached
handle count never exceeds `N` and no two cached handles are bound to the
same persona name. -/
theorem webhook_cache_amended (limit : Nat) (hlim : 1 ≤ limit)
    (seed : List (Bool × List Char))
    (hsl : (seedNames seed).length ≤ limit) (hsn : (seedNames seed).Nodup)
    (ps : List ImpersonationProfile) (c0 : Nat) :
    ((run_get_for_profile limit seed ps ⟨none, c0⟩).entry.getD []).length
        ≤ limit ∧
    (((run_get_for_profile limit seed ps ⟨none, c0⟩).entry.getD []).map
        fun m => m.name).Nodup := by
  have h := run_get_for_profile_preserves limit hlim seed hsl hsn ps ⟨none, c0⟩
    (by intro l hl; cases hl)
  cases hE : (run_get_for_profile limit seed ps ⟨none, c0⟩).entry with
  | none => simp
  | some l =>
    have hInv := h l hE
    simpa using hInv

/-- Witness for the amended C2 at a concrete input. -/
theorem webhook_cache_amended_witness :
    ((run_get_for_profile 1 [] [profileC] ⟨none, 0⟩).entry.getD []).length ≤ 1 ∧
    (((run_get_for_profile 1 [] [profileC] ⟨none, 0⟩).entry.getD []).map
        fun m => m.name).Nodup :=
  webhook_cache_amended 1 (by decide) [] (by decide) (by decide) [profileC] 0


/-! ### Chunk loop lemmas -/

theorem split_message_replicate_2500 :
    split_message 1999 (List.replicate 2500 'a') =
      [List.replicate 1999 'a', List.replicate 501 'a'] := by
  rw [split_message, if_neg (by rw [List.length_replicate]; omega)]
  rw [splitlinesKE_replicate 2500 (by omega)]
  rw [splitLoop]
  rw [if_pos (by rw [List.length_nil, List.length_replicate]; omega)]
  rw [if_pos List.isEmpty_nil, List.nil_append]
  rw [if_pos (by rw [List.length_replicate]; omega)]
  rw [hardSplit, List.length_replicate]
  rw [sliceChunks_nonempty_step 1999 2500 _ (replicate_ne_nil_of_pos 2500 'a' (by omega))
    (by omega)]
  rw [List.take_replicate, List.drop_replicate]
  have e1 : min 1999 2500 = 1999 := by omega
  have e2 : (2500 : Nat) - 1999 = 501 := by omega
  have e3 : (2500 : Nat) - 1 = 2499 := by omega
  rw [e1, e2, e3]
  rw [sliceChunks_nonempty_step 1999 2499 _ (replicate_ne_nil_of_pos 501 'a' (by omega))
    (by omega)]
  rw [List.take_replicate, List.drop_replicate]
  have e4 : min 1999 501 = 501 := by omega
  have e5 : (501 : Nat) - 1999 = 0 := by omega
  rw [e4, e5, List.replicate_zero, sliceChunks_nil]
  rw [splitLoop, if_pos List.isEmpty_nil, List.append_nil]

theorem chunkSends_split (files stkrs : List Nat) :
    ∀ (parts : List (List Char)) (hp : parts ≠ []),
      chunkSends parts files stkrs
        = (parts.dropLast.map fun q => ChunkSend.mk q [] [])
            ++ [⟨parts.getLast hp, files, stkrs⟩] := by
  intro parts
  induction parts with
  | nil => intro hp; exact absurd rfl hp
  | cons x rest ih =>
    intro hp
    rcases rest with _ | ⟨y, ys⟩
    · simp [chunkSends]
    · rw [chunkSends, ih (by simp)]
      rw [show (x :: y :: ys).getLast hp = (y :: ys).getLast (by simp) from
        List.getLast_cons (by simp)]
      simp [List.dropLast]

theorem recordLoop_eq_filterMap (r : Nat → Option Nat) :
    ∀ (sends : List ChunkSend) (i : Nat),
      recordLoop r sends i
        = ((List.range sends.length).map fun k => k + i).filterMap r := by
  intro sends
  induction sends with
  | nil => intro i; rfl
  | cons ch rest ih =>
    intro i
    have hfun : ((fun k => k + i) ∘ Nat.succ) = fun k => k + (i + 1) := by
      funext k
      simp [Function.comp]
      omega
    rw [recordLoop]
    simp only [List.length_cons, List.range_succ_eq_map, List.map_cons,
      List.map_map, List.filterMap_cons, Nat.zero_add, hfun]
    rw [← ih (i + 1)]
    cases r i <;> rfl

/-- C4: multi-chunk attachment placement and per-chunk provenance — in the
per-part send loop every non-final chunk carries no attachments and no
stickers while the final chunk carries the message's attachments and
stickers; one provenance record is stored per successfully delivered chunk
(in order); and a 2500-character payload with one attachment splits into
two chunks, the first bare, the second carrying the attachment, with two
provenance records when both deliveries succeed. -/
theorem chunk_attachments_and_provenance :
    (∀ (parts : List (List Char)) (files stkrs : List Nat) (hp : parts ≠ []),
      chunkSends parts files stkrs
        = (parts.dropLast.map fun q => ChunkSend.mk q [] [])
            ++ [⟨parts.getLast hp, files, stkrs⟩]) ∧
    (∀ (r : Nat → Option Nat) (sends : List ChunkSend),
      recordLoop r sends 0 = (List.range sends.length).filterMap r) ∧
    (contentParts (List.replicate 2500 'a') false
        = [List.replicate 1999 'a', List.replicate 501 'a'] ∧
      chunkSends [List.replicate 1999 'a', List.replicate 501 'a'] [7] []
        = [⟨List.replicate 1999 'a', [], []⟩, ⟨List.replicate 501 'a', [7], []⟩] ∧
      recordLoop (fun i => some (100 + i))
        (chunkSends [List.replicate 1999 'a', List.replicate 501 'a'] [7] []) 0
        = [100, 101]) := by
  refine ⟨fun parts files stkrs hp => chunkSends_split files stkrs parts hp,
    ?_, ?_, ?_, ?_⟩
  · intro r sends
    rw [recordLoop_eq_filterMap r sends 0]
    congr 1
    simp
  · rw [contentParts, if_neg (by simp)]
    exact split_message_replicate_2500
  · rfl
  · rfl

/-- Witness for C4 at a concrete input. -/
theorem chunk_attachments_witness :
    chunkSends [['a'], ['b']] [3] [4]
      = [⟨['a'], [], []⟩, ⟨['b'], [3], [4]⟩] := by
  have := chunk_attachments_and_provenance.1 [['a'], ['b']] [3] [4] (by decide)
  simpa using this


/-! ### Enrichment lemmas -/

theorem exceptOk_bind {α β : Type} (a : α) (f : α → Except Unit β) :
    (Except.ok a : Except Unit α).bind f = f a := rfl

theorem exceptError_bind {α β : Type} (f : α → Except Unit β) :
    (Except.error () : Except Unit α).bind f = .error () := rfl

theorem rebuildTokens_nil (fin : List Char) : rebuildTokens [] fin = fin := by
  simp [rebuildTokens]

theorem rebuildTokens_cons (gn : List Char × List Char)
    (ps : List (List Char × List Char)) (fin : List Char) :
    rebuildTokens (gn :: ps) fin
      = gn.1 ++ (':' :: (gn.2 ++ [':']) ++ rebuildTokens ps fin) := by
  simp [rebuildTokens]

theorem tryToken_sound (prev : Option Char) (s run u : List Char)
    (h : tryToken prev s = some (run, u)) :
    s = ':' :: (run ++ ':' :: u) ∧ run ≠ [] ∧ u.length + 2 ≤ s.length := by
  rcases s with _ | ⟨c, t⟩
  · simp [tryToken] at h
  · simp only [tryToken] at h
    by_cases hc : c = ':'
    case neg => rw [if_neg hc] at h; cases h
    rw [if_pos hc] at h
    by_cases hprev : prev = some '<'
    case pos => rw [if_pos hprev] at h; cases h
    rw [if_neg hprev] at h
    by_cases hrun : (t.takeWhile isWordChar).isEmpty = true
    case pos => rw [if_pos hrun] at h; cases h
    rw [if_neg hrun] at h
    by_cases hcol : (t.dropWhile isWordChar).head? = some ':'
    case neg => rw [if_neg hcol] at h; cases h
    rw [if_pos hcol] at h
    by_cases hla : (!((t.dropWhile isWordChar).tail.takeWhile isDigitChar).isEmpty &&
        decide (((t.dropWhile isWordChar).tail.dropWhile isDigitChar).head?
          = some '>')) = true
    case pos => rw [if_pos hla] at h; cases h
    rw [if_neg hla] at h
    simp only [Option.some.injEq, Prod.mk.injEq] at h
    obtain ⟨hrun2, hu⟩ := h
    subst hrun2
    subst hu
    subst hc
    have hdrop : t.dropWhile isWordChar
        = ':' :: (t.dropWhile isWordChar).tail := by
      cases hdw : t.dropWhile isWordChar with
      | nil => rw [hdw] at hcol; cases hcol
      | cons dd uu =>
        rw [hdw] at hcol
        simp only [List.head?_cons, Option.some.injEq] at hcol
        simp [hcol]
    have ht : t = t.takeWhile isWordChar
        ++ ':' :: (t.dropWhile isWordChar).tail := by
      rw [← hdrop]
      exact (List.takeWhile_append_dropWhile _ _).symm
    refine ⟨by rw [← ht], by simpa using hrun, ?_⟩
    have hlen := congrArg List.length ht
    simp only [List.length_append, List.length_cons] at hlen ⊢
    omega

theorem rebuild_scanAux : ∀ (fuel : Nat) (prev : Option Char) (s : List Char),
    s.length ≤ fuel →
    rebuildTokens (scanAux fuel prev s).1 (scanAux fuel prev s).2 = s := by
  intro fuel
  induction fuel with
  | zero =>
    intro prev s h
    have : s = [] := by cases s <;> simp_all
    subst this
    simp [scanAux, rebuildTokens]
  | succ n ih =>
    intro prev s h
    rcases s with _ | ⟨c, rest⟩
    · simp [scanAux, rebuildTokens]
    · rw [scanAux]
      cases htt : tryToken prev (c :: rest) with
      | some ru =>
        rcases ru with ⟨run, u⟩
        obtain ⟨hs, hrun, hlen⟩ := tryToken_sound prev (c :: rest) run u htt
        have hle : u.length ≤ n := by
          simp only [List.length_cons] at hlen h
          omega
        have ihr := ih (some ':') u hle
        simp only [rebuildTokens_cons, List.nil_append]
        rw [ihr, hs]
        simp
      | none =>
        have ihr := ih (some c) rest (by simp only [List.length_cons] at h; omega)
        cases hsc : scanAux n (some c) rest with
        | mk ps fin =>
          rw [hsc] at ihr
          cases ps with
          | nil =>
            show rebuildTokens [] (c :: fin) = c :: rest
            simp only [rebuildTokens_nil] at ihr
            simp only [rebuildTokens_nil]
            rw [ihr]
          | cons gn ps2 =>
            show rebuildTokens ((c :: gn.1, gn.2) :: ps2) fin = c :: rest
            have hgoal : rebuildTokens ((c :: gn.1, gn.2) :: ps2) fin
                = c :: rebuildTokens (gn :: ps2) fin := by
              rw [rebuildTokens_cons, rebuildTokens_cons]
              simp
            rw [hgoal, ihr]

theorem resolveTok_verbatim (ge : List GuildEmoji)
    (map : List (List Char × List Char))
    (fetch : List Char → Option FetchResponse) (nm : List Char)
    (h1 : (ge.find? fun e => decide (e.name = nm)) = none)
    (h2 : map.lookup nm = none) :
    resolveTok ge map fetch nm = .ok (':' :: (nm ++ [':']), []) := by
  unfold resolveTok
  rw [h1]
  rw [if_neg (by simp [h2])]

theorem resolveTok_non200 (ge : List GuildEmoji)
    (map : List (List Char × List Char))
    (fetch : List Char → Option FetchResponse) (nm url : List Char)
    (resp : FetchResponse)
    (h1 : (ge.find? fun e => decide (e.name = nm)) = none)
    (h2 : map.lookup nm = some url)
    (h3 : fetch url = some resp) (h4 : resp.status ≠ 200) :
    resolveTok ge map fetch nm = .ok (':' :: (nm ++ [':']), []) := by
  unfold resolveTok
  rw [h1]
  have hmapne : map.isEmpty = false := by
    cases map
    · simp at h2
    · rfl
  rw [if_pos (by simp [h2, hmapne])]
  simp [h2, h3, h4]

theorem convertLoop_verbatim (ge : List GuildEmoji)
    (map : List (List Char × List Char))
    (fetch : List Char → Option FetchResponse) :
    ∀ (ps : List (List Char × List Char)) (files : List (List Char)),
      (∀ gn ∈ ps, (ge.find? fun e => decide (e.name = gn.2)) = none ∧
        map.lookup gn.2 = none) →
      convertLoop ge map fetch ps files = .ok (rebuildTokens ps [], files) := by
  intro ps
  induction ps with
  | nil =>
    intro files h
    simp [convertLoop, rebuildTokens]
  | cons gn rest ih =>
    intro files h
    have hres := resolveTok_verbatim ge map fetch gn.2
      (h gn (by simp)).1 (h gn (by simp)).2
    have hih := ih (files ++ []) fun x hx => h x (by simp [hx])
    rw [convertLoop, hres]
    simp only [exceptOk_bind]
    rw [hih]
    simp only [exceptOk_bind]
    simp [rebuildTokens_cons]

theorem convert_verbatim (ge : List GuildEmoji)
    (map : List (List Char × List Char))
    (fetch : List Char → Option FetchResponse) (text : List Char)
    (att : List (List Char))
    (h : ∀ gn ∈ (scanTokens text).1,
      (ge.find? fun e => decide (e.name = gn.2)) = none ∧
      map.lookup gn.2 = none) :
    convert_emojis_for_webhook ge map fetch text att = .ok (text, att) := by
  unfold convert_emojis_for_webhook
  rw [convertLoop_verbatim ge map fetch (scanTokens text).1 att h]
  simp only [exceptOk_bind]
  have hre : rebuildTokens (scanTokens text).1 (scanTokens text).2 = text :=
    rebuild_scanAux text.length none text le_rfl
  have hfin : rebuildTokens (scanTokens text).1 []
      ++ (scanTokens text).2 = text := by
    rw [show rebuildTokens (scanTokens text).1 [] ++ (scanTokens text).2
        = rebuildTokens (scanTokens text).1 (scanTokens text).2 from by
      simp [rebuildTokens]]
    exact hre
  rw [hfin]

theorem resolveTok_empty_map_isOk (ge : List GuildEmoji)
    (fetch : List Char → Option FetchResponse) (nm : List Char) :
    exceptOk (resolveTok ge [] fetch nm) = true := by
  unfold resolveTok
  cases ge.find? fun e => decide (e.name = nm) with
  | some e => rfl
  | none =>
    rw [if_neg (by simp)]
    rfl

theorem convertLoop_empty_map_isOk (ge : List GuildEmoji)
    (fetch : List Char → Option FetchResponse) :
    ∀ (ps : List (List Char × List Char)) (files : List (List Char)),
      exceptOk (convertLoop ge [] fetch ps files) = true := by
  intro ps
  induction ps with
  | nil => intro files; rfl
  | cons gn rest ih =>
    intro files
    rw [convertLoop]
    cases hres : resolveTok ge [] fetch gn.2 with
    | error e =>
      have hok := resolveTok_empty_map_isOk ge fetch gn.2
      rw [hres] at hok
      simp [exceptOk] at hok
    | ok se =>
      simp only [exceptOk_bind]
      cases hloop : convertLoop ge [] fetch rest (files ++ se.2) with
      | error e =>
        have hok := ih (files ++ se.2)
        rw [hloop] at hok
        simp [exceptOk] at hok
      | ok tf => rfl

theorem convert_empty_map_isOk (ge : List GuildEmoji)
    (fetch : List Char → Option FetchResponse) (text : List Char)
    (att : List (List Char)) :
    exceptOk (convert_emojis_for_webhook ge [] fetch text att) = true := by
  unfold convert_emojis_for_webhook
  cases hloop : convertLoop ge [] fetch (scanTokens text).1 att with
  | error e =>
    have hok := convertLoop_empty_map_isOk ge fetch (scanTokens text).1 att
    rw [hloop] at hok
    simp [exceptOk] at hok
  | ok tf => simp only [exceptOk_bind]; rfl

/-- C6 counterexample: with an external-emoji map entry for `x` and a
fetch that raises, converting `":x:"` aborts the whole enrichment (the
exception escapes `convert_emojis_and_attachments_for_webhook`; the caller
`send_as_profile` catches it and the chunk is not sent) — the token does
not fall through to verbatim text. -/
theorem enrichment_counterexample :
    exceptOk (convert_emojis_for_webhook [] [(['x'], ['u'])] (fun _ => none)
      [':', 'x', ':'] []) = false := by decide

/-- C6 (amended): enrichment is total on the dispatch path, which passes
no external-emoji map — a token resolving to no known custom emoji and
with no map entry is left verbatim (per token, and hence a fully
unresolved text is returned unchanged), and a non-200 fetch response falls
through to the verbatim token; but a raised network error while fetching,
possible only when a caller supplies a map, aborts the whole conversion
(and with it the chunk's send) instead of being swallowed per-token. -/
theorem enrichment_amended :
    (∀ (ge : List GuildEmoji) (map : List (List Char × List Char))
      (fetch : List Char → Option FetchResponse) (nm : List Char),
      (ge.find? fun e => decide (e.name = nm)) = none →
      map.lookup nm = none →
      resolveTok ge map fetch nm = .ok (':' :: (nm ++ [':']), [])) ∧
    (∀ (ge : List GuildEmoji) (map : List (List Char × List Char))
      (fetch : List Char → Option FetchResponse) (text : List Char)
      (att : List (List Char)),
      (∀ gn ∈ (scanTokens text).1,
        (ge.find? fun e => decide (e.name = gn.2)) = none ∧
        map.lookup gn.2 = none) →
      convert_emojis_for_webhook ge map fetch text att = .ok (text, att)) ∧
    (∀ (ge : List GuildEmoji) (fetch : List Char → Option FetchResponse)
      (text : List Char) (att : List (List Char)),
      exceptOk (convert_emojis_for_webhook ge [] fetch text att) = true) ∧
    (∀ (ge : List GuildEmoji) (map : List (List Char × List Char))
      (fetch : List Char → Option FetchResponse) (nm url : List Char)
      (resp : FetchResponse),
      (ge.find? fun e => decide (e.name = nm)) = none →
      map.lookup nm = some url → fetch url = some resp → resp.status ≠ 200 →
      resolveTok ge map fetch nm = .ok (':' :: (nm ++ [':']), [])) :=
  ⟨resolveTok_verbatim, convert_verbatim, convert_empty_map_isOk,
    resolveTok_non200⟩

/-- Witness for the amended C6 at a concrete input. -/
theorem enrichment_amended_witness :
    convert_emojis_for_webhook [] [] (fun _ => none) [':', 'x', ':'] []
      = .ok ([':', 'x', ':'], []) :=
  enrichment_amended.2.1 [] [] (fun _ => none) [':', 'x', ':'] [] (by decide)

end ImpersonationBot
